import Mathlib

/-!
# Verification of the `bt` core tree engine (`src/bt/core.py`)

Shallow embedding of the portfolio-tree engine: `SecurityBase` and
`StrategyBase` nodes, the stale/update protocol, capital allocation,
and the `AlgoStack` combinator.

Modelling conventions:
* Python floats are modelled as exact rationals (`ℚ`).  `NaN` is not
  representable; the `np.isnan` checks of the source are therefore
  vacuous in the embedding and a zero price stands for the whole
  "price is 0 or nan" error condition.
* Dates are natural numbers, with `0` playing the role of the initial
  `self.now = 0` sentinel of `Node.__init__`.
* Fatal `raise` statements are modelled by `Except String`.
* `parent.adjust(...)` calls made by a node are emitted as explicit
  `AdjustCall` records and applied to the parent state by the caller,
  which keeps each method a pure function of its own node.
* The root-level `stale` flag is a field of the strategy state; it is
  meaningful on the node playing the root role.
* pandas time-series buffers (`_values`, `_prices`, `_cash`, `_fees`,
  `_positions`) are association lists from date to rational, written
  with `setKey` (label assignment semantics).
* Securities are modelled with `_prices_set = True` (prices bound from
  the universe at `setup`); the synthesized-column branch of
  `SecurityBase.update` (None data) is not exercised by any claim.
-/

/-- Assignment `series[date] = v` on an association-list time series. -/
def setKey (k : ℕ) (v : ℚ) : List (ℕ × ℚ) → List (ℕ × ℚ)
  | [] => [(k, v)]
  | (k₀, v₀) :: rest => if k = k₀ then (k, v) :: rest else (k₀, v₀) :: setKey k v rest

/-- State of a `SecurityBase` node (`src/bt/core.py`, class `SecurityBase`).
Fields mirror `name`, `_position`, `_price`, `multiplier`, `_value`,
`_weight`, `_last_pos`, `_needupdate`, `now`, `_prices` (bound from the
universe), `_values` and `_positions`. -/
structure SecState where
  name : String
  position : ℚ
  price : ℚ
  multiplier : ℚ
  value : ℚ
  weight : ℚ
  lastPos : ℚ
  needupdate : Bool
  now : ℕ
  priceSeries : List ℚ
  valuesSeries : List (ℕ × ℚ)
  positionsSeries : List (ℕ × ℚ)
deriving DecidableEq, Repr

/-- A fresh `SecurityBase(name)` as built by `SecurityBase.__init__`
(through `Node.__init__`): zero position, price, value and weight,
`_last_pos = 0`, `_needupdate = True`, `now = 0`. -/
def newSecurity (name : String) : SecState :=
  { name := name, position := 0, price := 0, multiplier := 1, value := 0,
    weight := 0, lastPos := 0, needupdate := true, now := 0,
    priceSeries := [], valuesSeries := [], positionsSeries := [] }

/-- `SecurityBase.setup(universe)`: bind `_prices` to the universe column
of the security's name (the `_prices_set = True` branch); a missing
column is modelled by the empty series. -/
def secSetup (univ : List (String × List ℚ)) (s : SecState) : SecState :=
  { s with priceSeries := ((univ.find? (fun p => p.1 = s.name)).map Prod.snd).getD [] }

/-- Price lookup `self._prices[self.now]`; dates beyond the bound series
default to 0 (out-of-range dates are outside every claim's scope). -/
def priceAt (ps : List ℚ) (d : ℕ) : ℚ := ps.getD d 0

/-- `SecurityBase.update(date, data=None)` (`src/bt/core.py:844-877`):
no-op fast path when the date is unchanged and the position did not
move; on a date change re-read the bound price; then record position,
recompute `value = position * price * multiplier`, and clear
`_needupdate` when both weight and position are zero. -/
def secUpdate (date : ℕ) (s : SecState) : SecState :=
  if date = s.now ∧ s.lastPos = s.position then s
  else
    let s := if date ≠ s.now then
        { s with now := date, price := priceAt s.priceSeries date }
      else s
    let s := { s with positionsSeries := setKey date s.position s.positionsSeries,
                      lastPos := s.position }
    let s := { s with value := s.position * s.price * s.multiplier }
    let s := { s with valuesSeries := setKey date s.value s.valuesSeries }
    if s.weight = 0 ∧ s.position = 0 then { s with needupdate := false } else s

/-- A `StrategyBase.adjust(amount, update, flow, fee)` invocation emitted
by a child toward its parent. -/
structure AdjustCall where
  amount : ℚ
  update : Bool
  flow : Bool
  fee : ℚ
deriving DecidableEq, Repr

/-- The default commission function `StrategyBase._dflt_comm_fn`
(`src/bt/core.py:706-708`): `max(1, abs(q) * 0.01)`. -/
def dfltCommFn (q _p : ℚ) : ℚ := max 1 (|q| * (1 / 100))

/-- The refresh prologue of `SecurityBase.allocate`
(`src/bt/core.py:896-900`): `if self._needupdate or self.now !=
self.parent.now: self.update(self.parent.now)`. -/
def secRefresh (parentNow : ℕ) (s : SecState) : SecState :=
  if s.needupdate ∨ s.now ≠ parentNow then secUpdate parentNow s else s

/-- The quantity determination of `SecurityBase.allocate`
(`src/bt/core.py:920-931`).  The full-close path (`amount == -value`)
performs no division; the long path floors and the short path ceils
`amount / (price * multiplier)`.  Rational division is total, so the
Python behaviour at the two division sites — float division raising an
uncaught `ZeroDivisionError` when `price * multiplier` is zero, which
here can only mean a zero multiplier since a zero price was already
rejected — is made explicit as an error branch guarding each site. -/
def secQuantity (amount : ℚ) (s : SecState) : Except String ℚ :=
  if amount = -s.value then .ok (-s.position)
  else if s.position > 0 ∨ (s.position = 0 ∧ amount > 0) then
    if s.price * s.multiplier = 0 then .error "float division by zero"
    else .ok ((⌊amount / (s.price * s.multiplier)⌋ : ℤ) : ℚ)
  else
    if s.price * s.multiplier = 0 then .error "float division by zero"
    else .ok ((⌈amount / (s.price * s.multiplier)⌉ : ℤ) : ℚ)

/-- `SecurityBase.allocate(amount, update=True)` (`src/bt/core.py:879-952`).
`commFn` is the parent's `commission_fn`; `parentNow` is `self.parent.now`;
`orphan` is true when `self.parent is self or self.parent is None`.
Returns the new security state together with the `parent.adjust` call
(if any trade happened).  The body follows the source order: refresh via
`update` when `_needupdate` or the date is stale; silently ignore a zero
amount; raise for an orphaned security; raise for a zero (or nan) price;
compute the quantity via `secQuantity` (exact close / floor for long /
ceil for short, an uncaught `ZeroDivisionError` when the divisor
`price * multiplier` is zero); silently ignore a zero quantity;
otherwise mark `_needupdate`, move the position and emit
`parent.adjust(-outlay, update=update, flow=False, fee=fee)` where
`outlay, fee = self.outlay(q)`. -/
def secAllocate (commFn : ℚ → ℚ → ℚ) (parentNow : ℕ) (orphan : Bool)
    (amount : ℚ) (upd : Bool) (s : SecState) :
    Except String (SecState × Option AdjustCall) :=
  let s := secRefresh parentNow s
  if amount = 0 then .ok (s, none)
  else if orphan then .error "Cannot allocate capital to a parentless security"
  else if s.price = 0 then
    .error ("Cannot allocate capital to " ++ s.name ++ " because price is 0 or nan")
  else
    match secQuantity amount s with
    | .error e => .error e
    | .ok q =>
      if q = 0 then .ok (s, none)
      else
        let s := { s with needupdate := true, position := s.position + q }
        let fee := commFn q (s.price * s.multiplier)
        let outlay := q * s.price * s.multiplier + fee
        .ok (s, some ⟨-outlay, upd, false, fee⟩)

/-- State of a `StrategyBase` node (`src/bt/core.py`, class `StrategyBase`).
Fields mirror `name`, `_capital`, `_net_flows`, `_last_value`,
`_last_price`, `_last_fee`, `_price`, `_value`, `_weight`, `now`, the
root-level `stale` flag, and the `_values`, `_prices`, `_cash`, `_fees`
time-series buffers.  `StrategyBase.__init__` starts with capital 0,
weight 1, value 0 and price 100. -/
structure StratState where
  name : String
  capital : ℚ
  netFlows : ℚ
  lastValue : ℚ
  lastPrice : ℚ
  lastFee : ℚ
  price : ℚ
  value : ℚ
  weight : ℚ
  now : ℕ
  stale : Bool
  valuesSeries : List (ℕ × ℚ)
  pricesSeries : List (ℕ × ℚ)
  cashSeries : List (ℕ × ℚ)
  feesSeries : List (ℕ × ℚ)
deriving DecidableEq, Repr

/-- A fresh `StrategyBase(name)` (no children yet). -/
def newStrategy (name : String) : StratState :=
  { name := name, capital := 0, netFlows := 0, lastValue := 0,
    lastPrice := 100, lastFee := 0, price := 100, value := 0, weight := 1,
    now := 0, stale := false, valuesSeries := [], pricesSeries := [],
    cashSeries := [], feesSeries := [] }

/-- `StrategyBase.adjust(amount, update=True, flow=True, fee=0.0)`
(`src/bt/core.py:534-561`): add to capital and `_last_fee`, add to
`_net_flows` when `flow`, and mark the root stale when `update` (the
`stale` field stands for `self.root.stale`). -/
def stratAdjust (amount : ℚ) (upd flow : Bool) (fee : ℚ) (st : StratState) : StratState :=
  let st := { st with capital := st.capital + amount, lastFee := st.lastFee + fee }
  let st := if flow then { st with netFlows := st.netFlows + amount } else st
  if upd then { st with stale := true } else st

/-- Apply an emitted `AdjustCall` to a parent strategy state. -/
def applyAdjust (a : AdjustCall) (st : StratState) : StratState :=
  stratAdjust a.amount a.update a.flow a.fee st

/-- Apply an optional emitted `AdjustCall`. -/
def applyAdjustOpt (a : Option AdjustCall) (st : StratState) : StratState :=
  match a with
  | some a => applyAdjust a st
  | none => st

/-- The tick-transition prologue of `StrategyBase.update`
(`src/bt/core.py:443-459`): clear the stale flag, and on the first-ever
call (`now == 0`) or a date change snapshot `_last_price`/`_last_value`,
reset `_net_flows` and `_last_fee`, and report `newpt = True`; finally
set `now = date`. -/
def tickTransition (date : ℕ) (st : StratState) : StratState × Bool :=
  let st := { st with stale := false }
  if st.now = 0 then ({ st with now := date }, true)
  else if date ≠ st.now then
    ({ st with netFlows := 0, lastPrice := st.price, lastValue := st.value,
               lastFee := 0, now := date }, true)
  else ({ st with now := date }, false)

/-- The commit block of `StrategyBase.update` (`src/bt/core.py:479-501`):
store the freshly computed value, derive the period return
`ret = value / (last_value + net_flows) - 1` (a zero denominator gives
`ret = 0` when the value is zero and is a fatal `ZeroDivisionError`
otherwise), and set `price = last_price * (1 + ret)`, recording both
series. -/
def commitValue (date : ℕ) (st : StratState) (val : ℚ) : Except String StratState :=
  let st := { st with value := val, valuesSeries := setKey date val st.valuesSeries }
  if st.lastValue + st.netFlows = 0 then
    if st.value = 0 then
      let st := { st with price := st.lastPrice * (1 + 0) }
      .ok { st with pricesSeries := setKey date st.price st.pricesSeries }
    else
      .error ("Could not update " ++ st.name ++ ". We are dividing by zero to obtain the return for the period.")
  else
    let st := { st with price := st.lastPrice * (1 + (st.value / (st.lastValue + st.netFlows) - 1)) }
    .ok { st with pricesSeries := setKey date st.price st.pricesSeries }

/-- The unconditional epilogue of `StrategyBase.update`
(`src/bt/core.py:519-523`): snapshot `cash[now] = capital` and
`fees[now] = last_fee`. -/
def writeCashFees (st : StratState) : StratState :=
  { st with cashSeries := setKey st.now st.capital st.cashSeries,
            feesSeries := setKey st.now st.lastFee st.feesSeries }

/-- A node of the tree: a security leaf or a strategy with a name-keyed
children mapping (Python's `self.children` dict). -/
inductive Node where
  | sec : SecState → Node
  | strat : StratState → List (String × Node) → Node
deriving Repr

/-- `Node.value` cached field (`self._value`). -/
def nodeValue : Node → ℚ
  | .sec s => s.value
  | .strat st _ => st.value

/-- `Node.weight` cached field (`self._weight`). -/
def nodeWeight : Node → ℚ
  | .sec s => s.weight
  | .strat st _ => st.weight

/-- `self.root.stale` of a root node (securities have no stale flag). -/
def nodeStale : Node → Bool
  | .sec _ => false
  | .strat st _ => st.stale

/-- `self.now` of a node. -/
def nodeNow : Node → ℕ
  | .sec s => s.now
  | .strat st _ => st.now

/-- The skip test of the children loop in `StrategyBase.update`
(`src/bt/core.py:467`): `c._issec and not c._needupdate`. -/
def skipChild : Node → Bool
  | .sec s => !s.needupdate
  | .strat _ _ => false

/-- The weight re-derivation loop of `StrategyBase.update`
(`src/bt/core.py:504-512`): `c._weight = c.value / val` with a zero
denominator giving weight 0; dormant securities are skipped. -/
def setChildWeight (val : ℚ) : Node → Node
  | .sec s => if !s.needupdate then .sec s
      else .sec { s with weight := if val = 0 then 0 else s.value / val }
  | .strat st cs => .strat { st with weight := if val = 0 then 0 else st.value / val } cs

/-- Weight re-derivation over the whole children mapping. -/
def updateWeights (val : ℚ) (cs : List (String × Node)) : List (String × Node) :=
  cs.map (fun p => (p.1, setChildWeight val p.2))

mutual

/-- `update(date)` on a tree node (`StrategyBase.update`,
`src/bt/core.py:438-523`, and `SecurityBase.update`,
`src/bt/core.py:844-877`).  For a strategy: tick transition, recursive
child updates accumulating `val = capital + Σ child.value` (dormant
securities skipped), the fatal negative-root-value check, the value /
price commit when `newpt` or the value changed, weight re-derivation,
and the cash/fees snapshot.  `isRoot` is `self.root == self`.  The
paper-trading epilogue (`src/bt/core.py:526-532`) is outside the model:
all modelled strategies have `_paper_trade = False`, which holds for
every root strategy. -/
def updateNode (date : ℕ) (isRoot : Bool) : Node → Except String Node
  | .sec s => .ok (.sec (secUpdate date s))
  | .strat st cs =>
    let p := tickTransition date st
    match updateChildren date cs with
    | .error e => .error e
    | .ok (cs₁, childSum) =>
      let val := p.1.capital + childSum
      if isRoot ∧ val < 0 then .error "negative root node value!"
      else
        match (if p.2 ∨ p.1.value ≠ val then commitValue date p.1 val else .ok p.1) with
        | .error e => .error e
        | .ok st₂ => .ok (.strat (writeCashFees st₂) (updateWeights val cs₁))

/-- The children loop of `StrategyBase.update` (`src/bt/core.py:464-470`):
skip dormant securities, update the rest, and accumulate the sum of the
updated children's values (skipped children contribute nothing). -/
def updateChildren (date : ℕ) : List (String × Node) → Except String (List (String × Node) × ℚ)
  | [] => .ok ([], 0)
  | (k, c) :: rest =>
    if skipChild c then
      match updateChildren date rest with
      | .error e => .error e
      | .ok (rest₁, s) => .ok ((k, c) :: rest₁, s)
    else
      match updateNode date false c with
      | .error e => .error e
      | .ok c₁ =>
        match updateChildren date rest with
        | .error e => .error e
        | .ok (rest₁, s) => .ok ((k, c₁) :: rest₁, nodeValue c₁ + s)

end

/-- `StrategyBase.adjust` on a root node (`adjust` is only defined for
strategies; the security case is unreachable and is the identity). -/
def rootAdjust (amount : ℚ) (upd flow : Bool) (fee : ℚ) : Node → Node
  | .strat st cs => .strat (stratAdjust amount upd flow fee st) cs
  | .sec s => .sec s

mutual

/-- `allocate(amount, update)` on a child node.  For a security this is
`SecurityBase.allocate` (`src/bt/core.py:879-952`).  For a strategy it
is the `child is None` branch of `StrategyBase.allocate`
(`src/bt/core.py:594-616`) for a NON-root strategy: the
`parent.adjust(-amount, update=False, flow=False)` call is emitted for
the caller to apply, `self.adjust(amount, update=False, flow=True)` is
applied, and the allocation cascades to every child `c` via
`c.allocate(amount * c._weight, update=False)` using the cached weight.
The returned `Bool` reports whether `root.stale` must be set
(`if update: self.root.stale = True`). -/
def allocateNode (commFn : ℚ → ℚ → ℚ) (parentNow : ℕ) (amount : ℚ) (upd : Bool) :
    Node → Except String (Node × Option AdjustCall × Bool)
  | .sec s =>
    match secAllocate commFn parentNow false amount upd s with
    | .error e => .error e
    | .ok (s₁, call) => .ok (.sec s₁, call, false)
  | .strat st cs =>
    let st₁ := stratAdjust amount false true 0 st
    match allocateChildren commFn amount st₁ cs with
    | .error e => .error e
    | .ok (st₂, cs₁) => .ok (.strat st₂ cs₁, some ⟨-amount, false, false, 0⟩, upd)

/-- The proportional cascade of `StrategyBase.allocate`
(`src/bt/core.py:610-612`): each child receives
`c.allocate(amount * c._weight, update=False)`, in mapping order, and
each emitted `parent.adjust` is applied to this strategy's state. -/
def allocateChildren (commFn : ℚ → ℚ → ℚ) (amount : ℚ) :
    StratState → List (String × Node) → Except String (StratState × List (String × Node))
  | st, [] => .ok (st, [])
  | st, (k, c) :: rest =>
    match allocateNode commFn st.now (amount * nodeWeight c) false c with
    | .error e => .error e
    | .ok (c₁, call, _) =>
      match allocateChildren commFn amount (applyAdjustOpt call st) rest with
      | .error e => .error e
      | .ok (st₂, rest₁) => .ok (st₂, (k, c₁) :: rest₁)

end

/-- `StrategyBase.allocate(amount, child=None, update)` on the ROOT
strategy (`self.parent == self`, `src/bt/core.py:598-599`):
`self.parent.adjust(-amount, update=False, flow=True)` and
`self.adjust(amount, update=False, flow=True)` both land on this node,
the allocation cascades to the children, and `root.stale` is set when
`update` is true. -/
def rootAllocate (commFn : ℚ → ℚ → ℚ) (amount : ℚ) (upd : Bool) :
    Node → Except String Node
  | .sec s => .error ("not a strategy: " ++ s.name)
  | .strat st cs =>
    let st₀ := stratAdjust (-amount) false true 0 st
    let st₁ := stratAdjust amount false true 0 st₀
    match allocateChildren commFn amount st₁ cs with
    | .error e => .error e
    | .ok (st₂, cs₁) =>
      .ok (.strat (if upd then { st₂ with stale := true } else st₂) cs₁)

/-- `self.children[child]` lookup in the children mapping. -/
def lookupChild (child : String) : List (String × Node) → Option Node
  | [] => none
  | (k, c) :: rest => if k = child then some c else lookupChild child rest

/-- Replace the entry of an existing key in the children mapping
(Python dict item assignment for a present key). -/
def replaceChild (child : String) (c : Node) : List (String × Node) → List (String × Node)
  | [] => []
  | (k, c₀) :: rest =>
    if k = child then (k, c) :: rest else (k, c₀) :: replaceChild child c rest

/-- Materialization of a missing child (`src/bt/core.py:584-590` and
`654-659`): `c = SecurityBase(child); c.setup(self._universe);
c.update(self.now); self._add_child(c)`. -/
def materializeChild (univ : List (String × List ℚ)) (d : ℕ) (child : String) : Node :=
  .sec (secUpdate d (secSetup univ (newSecurity child)))

/-- The body shared by `StrategyBase.allocate(amount, child)` and
`StrategyBase.rebalance` after child resolution: run
`c.allocate(amount)` (default `update=True`), apply the emitted
`parent.adjust` to this strategy, set the root-stale surrogate when the
child requested it, and store the new child under its key. -/
def allocChildCore (commFn : ℚ → ℚ → ℚ) (st : StratState) (cs : List (String × Node))
    (child : String) (c : Node) (amount : ℚ) :
    Except String (StratState × List (String × Node)) :=
  match allocateNode commFn st.now amount true c with
  | .error e => .error e
  | .ok (c₁, call, staleReq) =>
    let st₁ := applyAdjustOpt call st
    let st₂ := if staleReq then { st₁ with stale := true } else st₁
    .ok (st₂, replaceChild child c₁ cs)

/-- `StrategyBase.allocate(amount, child)` with a named child
(`src/bt/core.py:583-593`): materialize a missing child as a fresh
security bound to the universe, then `self.children[child].allocate(amount)`. -/
def stratAllocateChild (commFn : ℚ → ℚ → ℚ) (univ : List (String × List ℚ))
    (st : StratState) (cs : List (String × Node)) (amount : ℚ) (child : String) :
    Except String (StratState × List (String × Node)) :=
  match lookupChild child cs with
  | some c => allocChildCore commFn st cs child c amount
  | none =>
    let c₀ := materializeChild univ st.now child
    allocChildCore commFn st (cs ++ [(child, c₀)]) child c₀ amount

/-- `StrategyBase.flatten` (`src/bt/core.py:681-686`):
`c.allocate(-c.value)` on every child whose value is non-zero, the
emitted adjustments landing on this strategy. -/
def flattenChildren (commFn : ℚ → ℚ → ℚ) :
    StratState → List (String × Node) → Except String (StratState × List (String × Node))
  | st, [] => .ok (st, [])
  | st, (k, c) :: rest =>
    if nodeValue c ≠ 0 then
      match allocateNode commFn st.now (-(nodeValue c)) true c with
      | .error e => .error e
      | .ok (c₁, call, staleReq) =>
        let st₁ := applyAdjustOpt call st
        let st₂ := if staleReq then { st₁ with stale := true } else st₁
        match flattenChildren commFn st₂ rest with
        | .error e => .error e
        | .ok (st₃, rest₁) => .ok (st₃, (k, c₁) :: rest₁)
    else
      match flattenChildren commFn st rest with
      | .error e => .error e
      | .ok (st₃, rest₁) => .ok (st₃, (k, c) :: rest₁)

/-- `flatten` run on a child node before closing it (`close` flattens a
child that itself has children; securities have an empty children
mapping so they are untouched). -/
def flattenNode (commFn : ℚ → ℚ → ℚ) : Node → Except String Node
  | .sec s => .ok (.sec s)
  | .strat cst gs =>
    match flattenChildren commFn cst gs with
    | .error e => .error e
    | .ok (cst₁, gs₁) => .ok (.strat cst₁ gs₁)

/-- `StrategyBase.close(child)` (`src/bt/core.py:667-679`):
`c = self.children[child]` (a missing key raises `KeyError` before any
state is touched), flatten the child first when it has children of its
own, then `c.allocate(-c.value)`.  The tree is assumed quiescent
(root not stale) so the `c.value` property read returns the cached
field. -/
def closeChild (commFn : ℚ → ℚ → ℚ) (st : StratState) (cs : List (String × Node))
    (child : String) : Except String (StratState × List (String × Node)) :=
  match lookupChild child cs with
  | none => .error ("KeyError: " ++ child)
  | some c =>
    let hasKids := match c with
      | .sec _ => false
      | .strat _ gs => !gs.isEmpty
    match (if hasKids then flattenNode commFn c else .ok c) with
    | .error e => .error e
    | .ok c₁ => allocChildCore commFn st cs child c₁ (-(nodeValue c₁))

/-- `StrategyBase.rebalance(weight, child, base=nan, update=True)`
(`src/bt/core.py:618-665`).  `base = none` models the `np.isnan(base)`
default, replaced by `self.value` (the cached field: quiescent tree).
A zero target weight closes a present child and is a silent no-op for a
missing one; otherwise a missing child is materialized and the child is
allocated `(weight - c.weight) * base`. -/
def rebalanceChild (commFn : ℚ → ℚ → ℚ) (univ : List (String × List ℚ))
    (st : StratState) (cs : List (String × Node)) (weight : ℚ) (child : String)
    (base : Option ℚ) : Except String (StratState × List (String × Node)) :=
  if weight = 0 then
    match lookupChild child cs with
    | some _ => closeChild commFn st cs child
    | none => .ok (st, cs)
  else
    let b := match base with
      | some b => b
      | none => st.value
    match lookupChild child cs with
    | some c => allocChildCore commFn st cs child c ((weight - nodeWeight c) * b)
    | none =>
      let c₀ := materializeChild univ st.now child
      allocChildCore commFn st (cs ++ [(child, c₀)]) child c₀
        ((weight - nodeWeight c₀) * b)

/-- `StrategyBase._capital` raw field of a root strategy node. -/
def stratCapitalField : Node → ℚ
  | .sec _ => 0
  | .strat st _ => st.capital

/-- `StrategyBase._value` raw field of a root strategy node. -/
def stratValueField : Node → ℚ
  | .sec _ => 0
  | .strat st _ => st.value

/-- `StrategyBase._cash` raw series of a root strategy node. -/
def stratCashField : Node → List (ℕ × ℚ)
  | .sec _ => []
  | .strat st _ => st.cashSeries

/-- `StrategyBase._fees` raw series of a root strategy node. -/
def stratFeesField : Node → List (ℕ × ℚ)
  | .sec _ => []
  | .strat st _ => st.feesSeries

/-- The `StrategyBase.capital` property (`src/bt/core.py:318-324`):
`return self._capital`, no stale check, no update. -/
def readCapital (root : Node) : ℚ × Node := (stratCapitalField root, root)

/-- The `StrategyBase.cash` property (`src/bt/core.py:326-332`):
`return self._cash`, no stale check, no update. -/
def readCash (root : Node) : List (ℕ × ℚ) × Node := (stratCashField root, root)

/-- The `StrategyBase.fees` property (`src/bt/core.py:334-340`):
`return self._fees`, no stale check, no update. -/
def readFees (root : Node) : List (ℕ × ℚ) × Node := (stratFeesField root, root)

/-- The `SecurityBase.position` property (`src/bt/core.py:792-798`):
`return self._position`, no stale check, no update. -/
def readPosition (s : SecState) : ℚ × SecState := (s.position, s)

/-- The `Node.value` property read on the root (`src/bt/core.py:154-161`):
`if self.root.stale: self.root.update(self.root.now, None)` and only
then return the cached `_value`. -/
def readValue (root : Node) : Except String (ℚ × Node) :=
  if nodeStale root then
    match updateNode (nodeNow root) true root with
    | .error e => .error e
    | .ok root₁ => .ok (stratValueField root₁, root₁)
  else .ok (stratValueField root, root)

/-- An algo as consumed by `AlgoStack` (`src/bt/core.py:1025-1064`): a
callable from the target state to a boolean plus the mutated target,
together with whether it `hasattr(x, 'run_always')` and, if so, the
value of that attribute. -/
structure AlgoRec (σ : Type) where
  run : σ → Bool × σ
  hasRunAlways : Bool
  runAlwaysVal : Bool

/-- The normal running mode of `AlgoStack.__call__`
(`src/bt/core.py:1047-1051`): invoke the algos in order, returning
`False` at the first falsy result and `True` when none fails. -/
def normalLoop {σ : Type} : List (AlgoRec σ) → σ → Bool × σ
  | [], t => (true, t)
  | a :: rest, t =>
    match a.run t with
    | (true, t₁) => normalLoop rest t₁
    | (false, t₁) => (false, t₁)

/-- The extended running mode of `AlgoStack.__call__`
(`src/bt/core.py:1053-1064`): carry the last result in `res`; while
`res` is truthy keep invoking algos and storing their results,
afterwards invoke only algos with a true `run_always` attribute and
discard their results; return the final `res`. -/
def extLoop {σ : Type} : List (AlgoRec σ) → Bool → σ → Bool × σ
  | [], res, t => (res, t)
  | a :: rest, res, t =>
    if res then
      match a.run t with
      | (r, t₁) => extLoop rest r t₁
    else if a.hasRunAlways then
      if a.runAlwaysVal then extLoop rest res (a.run t).2
      else extLoop rest res t
    else extLoop rest res t

/-- `AlgoStack.__call__` (`src/bt/core.py:1045-1064`); the
`check_run_always` flag is `any(hasattr(x, 'run_always') for x in algos)`
computed at construction (`src/bt/core.py:1042-1043`). -/
def algoStackCall {σ : Type} (algos : List (AlgoRec σ)) (t : σ) : Bool × σ :=
  if !(algos.any (fun a => a.hasRunAlways)) then normalLoop algos t
  else extLoop algos true t

/-- Modelled from the spec (claim-side description of the stack
semantics, for the refinement comparison): invoke algos in order until
the first `False`, returning the result, the state there, and the
algos not yet invoked. -/
def runUntilFalse {σ : Type} : List (AlgoRec σ) → σ → Bool × σ × List (AlgoRec σ)
  | [], t => (true, t, [])
  | a :: rest, t =>
    match a.run t with
    | (true, t₁) => runUntilFalse rest t₁
    | (false, t₁) => (false, t₁, rest)

/-- Modelled from the spec (claim-side description): invoke only the
algos whose `run_always` attribute exists and is true, discarding their
boolean results. -/
def runAlwaysOnly {σ : Type} : List (AlgoRec σ) → σ → σ
  | [], t => t
  | a :: rest, t =>
    if a.hasRunAlways ∧ a.runAlwaysVal then runAlwaysOnly rest (a.run t).2
    else runAlwaysOnly rest t

/-- A commission function that returns its quantity argument unchanged,
used to expose the sign of the quantity passed to `commission_fn`. -/
def echoCommFn (q _p : ℚ) : ℚ := q

/-- A quiescent long-side test security (no refresh pending at date 1). -/
def sampleSec : SecState :=
  { name := "AAA", position := 0, price := 10, multiplier := 1, value := 0,
    weight := 0, lastPos := 0, needupdate := false, now := 1,
    priceSeries := [10, 10], valuesSeries := [], positionsSeries := [] }

/-- A quiescent flat test security at unit price (no refresh pending). -/
def shortSec : SecState :=
  { name := "SSS", position := 0, price := 1, multiplier := 1, value := 0,
    weight := 0, lastPos := 0, needupdate := false, now := 1,
    priceSeries := [1, 1], valuesSeries := [], positionsSeries := [] }

/-- A quiescent security with a nonzero price but a zero multiplier, so
the quantity divisor `price * multiplier` is zero. -/
def zeroMultSec : SecState :=
  { name := "MMM", position := 1, price := 3, multiplier := 0, value := 0,
    weight := 1, lastPos := 1, needupdate := false, now := 1,
    priceSeries := [3, 3], valuesSeries := [], positionsSeries := [] }

/-- A security with a pending refresh (`_needupdate = True`, stale
`_last_pos`) and a zero price. -/
def idleSec : SecState :=
  { name := "BBB", position := 0, price := 0, multiplier := 1, value := 0,
    weight := 0, lastPos := 1, needupdate := true, now := 1,
    priceSeries := [], valuesSeries := [], positionsSeries := [] }

/-- Sum of the cached values of all children in a mapping. -/
def sumValues : List (String × Node) → ℚ
  | [] => 0
  | p :: rest => nodeValue p.2 + sumValues rest

/-- A root strategy mid-tick whose cached value lags the capital (a
commit with nonzero denominator will fire on update). -/
def c1Root : StratState :=
  { name := "R1", capital := 10, netFlows := 0, lastValue := 5,
    lastPrice := 100, lastFee := 0, price := 100, value := 0, weight := 1,
    now := 2, stale := true, valuesSeries := [], pricesSeries := [],
    cashSeries := [], feesSeries := [] }

/-- A dormant security child: zero value, `_needupdate = False`. -/
def w2Dormant : SecState :=
  { name := "DDD", position := 0, price := 4, multiplier := 1, value := 0,
    weight := 0, lastPos := 0, needupdate := false, now := 1,
    priceSeries := [4, 4, 4], valuesSeries := [], positionsSeries := [] }

/-- An active security child holding 2 shares, priced 5 at date 2. -/
def w2Active : SecState :=
  { name := "EEE", position := 2, price := 6, multiplier := 1, value := 12,
    weight := 1, lastPos := 2, needupdate := true, now := 1,
    priceSeries := [6, 6, 5], valuesSeries := [], positionsSeries := [] }

/-- A root strategy at date 1 with one dormant and one active child. -/
def w2Root : StratState :=
  { name := "R2", capital := 20, netFlows := 3, lastValue := 17,
    lastPrice := 100, lastFee := 0, price := 100, value := 32, weight := 1,
    now := 1, stale := true, valuesSeries := [], pricesSeries := [],
    cashSeries := [], feesSeries := [] }

/-- The children mapping of `w2Root`. -/
def w2Kids : List (String × Node) := [("DDD", .sec w2Dormant), ("EEE", .sec w2Active)]

/-- A quiescent childless root with no performance impact this tick:
`value = capital = last_value + net_flows` and `price = last_price`. -/
def flowRoot : StratState :=
  { name := "R6", capital := 100, netFlows := 40, lastValue := 60,
    lastPrice := 110, lastFee := 0, price := 110, value := 100, weight := 1,
    now := 1, stale := false, valuesSeries := [], pricesSeries := [],
    cashSeries := [], feesSeries := [] }

/-- A stale childless root whose cached `_value` (0) disagrees with its
capital (5): value reads re-derive 5, raw reads still return 0. -/
def staleRoot : StratState :=
  { name := "R10", capital := 5, netFlows := 2, lastValue := 3,
    lastPrice := 100, lastFee := 0, price := 100, value := 0, weight := 1,
    now := 1, stale := true, valuesSeries := [], pricesSeries := [],
    cashSeries := [], feesSeries := [] }

/-- A quiescent root with no children, used for materialization tests. -/
def st9 : StratState :=
  { name := "R9", capital := 1000, netFlows := 0, lastValue := 50,
    lastPrice := 100, lastFee := 0, price := 100, value := 50, weight := 1,
    now := 1, stale := false, valuesSeries := [], pricesSeries := [],
    cashSeries := [], feesSeries := [] }

/-- A one-column universe carrying the symbol `GGG` priced 7 at date 1. -/
def univ9 : List (String × List ℚ) := [("GGG", [0, 7, 9])]

/-- A non-root strategy with one security child at weight one half, used
to instantiate the allocation-cascade protocol. -/
def st5 : StratState :=
  { name := "S5", capital := 40, netFlows := 0, lastValue := 80,
    lastPrice := 100, lastFee := 0, price := 100, value := 80, weight := 1,
    now := 1, stale := false, valuesSeries := [], pricesSeries := [],
    cashSeries := [], feesSeries := [] }

/-- The child of `st5`: 4 shares at price 10, cached weight one half. -/
def st5Kid : SecState :=
  { name := "HHH", position := 4, price := 10, multiplier := 1, value := 40,
    weight := 1 / 2, lastPos := 4, needupdate := false, now := 1,
    priceSeries := [10, 10], valuesSeries := [], positionsSeries := [] }

/-- The children mapping of `st5`. -/
def st5Kids : List (String × Node) := [("HHH", .sec st5Kid)]

/-- Whether an `Except` result is a raised error. -/
def exceptIsError {α : Type} : Except String α → Bool
  | .error _ => true
  | .ok _ => false

/-- **C3** (confirmed).  In `SecurityBase.allocate(amount)` with a nonzero
amount and a valid price `p = price * multiplier`, on a security that
needs no refresh, the traded quantity `q` is: exactly `-position` when
`amount == -value`; `floor(amount / p)` when `position > 0`, or when
`position == 0 and amount > 0`; and `ceil(amount / p)` otherwise.  When
that quantity is 0 (`NaN` is unrepresentable over exact rationals) the
call returns the security unchanged and emits no parent adjustment, so
position, value and the parent's capital are untouched; when it is
nonzero the position moves by exactly `q` (value and price are left for
the next update). -/
theorem sec_allocate_quantity_rule
    (commFn : ℚ → ℚ → ℚ) (pn : ℕ) (amount : ℚ) (upd : Bool) (s : SecState) (q : ℚ)
    (hupd : s.needupdate = false) (hnow : s.now = pn)
    (hamt : amount ≠ 0) (hpm : s.price * s.multiplier ≠ 0)
    (hq : q = if amount = -s.value then -s.position
          else if s.position > 0 ∨ (s.position = 0 ∧ amount > 0) then
            ((⌊amount / (s.price * s.multiplier)⌋ : ℤ) : ℚ)
          else ((⌈amount / (s.price * s.multiplier)⌉ : ℤ) : ℚ)) :
    (q = 0 → secAllocate commFn pn false amount upd s = .ok (s, none))
    ∧ (q ≠ 0 → ∃ s₁ call, secAllocate commFn pn false amount upd s = .ok (s₁, some call)
        ∧ s₁.position = s.position + q ∧ s₁.value = s.value ∧ s₁.price = s.price) := by
  have hpr : s.price ≠ 0 := left_ne_zero_of_mul hpm
  subst hnow
  have href : secRefresh s.now s = s := by
    simp [secRefresh, hupd]
  have hsq : secQuantity amount s = .ok q := by
    rw [secQuantity, hq]
    by_cases h₁ : amount = -s.value
    · simp [h₁]
    · by_cases h₂ : s.position > 0 ∨ (s.position = 0 ∧ amount > 0)
      · simp [h₁, h₂, hpm]
      · simp [h₁, h₂, hpm]
  rw [secAllocate]
  simp only [href]
  constructor
  · intro h0
    simp [hamt, hpr, hsq, h0]
  · intro h0
    refine ⟨{ s with needupdate := true, position := s.position + q },
      ⟨-(q * s.price * s.multiplier + commFn q (s.price * s.multiplier)), upd, false,
        commFn q (s.price * s.multiplier)⟩, ?_, rfl, rfl, rfl⟩
    simp [hamt, hpr, hsq, h0]

/-- Witness for C3 at a concrete input: buying 25 into `sampleSec`
(price 10, flat position) floors to q = 2. -/
theorem sec_allocate_quantity_rule_witness :
    ((2 : ℚ) = 0 → secAllocate dfltCommFn 1 false 25 true sampleSec = .ok (sampleSec, none))
    ∧ ((2 : ℚ) ≠ 0 → ∃ s₁ call,
        secAllocate dfltCommFn 1 false 25 true sampleSec = .ok (s₁, some call)
        ∧ s₁.position = sampleSec.position + 2 ∧ s₁.value = sampleSec.value
        ∧ s₁.price = sampleSec.price) :=
  sec_allocate_quantity_rule dfltCommFn 1 25 true sampleSec 2 rfl rfl
    (by norm_num) (by norm_num [sampleSec]) (by norm_num [sampleSec])

/-- **C4 counterexample.**  The claim says the commission fee is obtained
by invoking the parent's `commission_fn` with the unsigned quantity
`|q|`.  With a commission function returning its quantity argument, a
sell of `q = -2` at unit price records fee `-2` — the signed quantity
was passed — whereas the claim's `commission_fn(|q|, p)` would give 2. -/
theorem sec_allocate_commission_counterexample :
    (∃ s₁, secAllocate echoCommFn 1 false (-2) true shortSec
        = .ok (s₁, some ⟨4, true, false, -2⟩))
    ∧ echoCommFn |(-2 : ℚ)| (shortSec.price * shortSec.multiplier) = 2 := by
  constructor
  · refine ⟨{ shortSec with needupdate := true, position := -2 }, ?_⟩
    have hc : (⌈(-2 : ℚ)⌉ : ℤ) = -2 := by
      rw [Int.ceil_eq_iff] ; norm_num
    rw [secAllocate]
    norm_num [secRefresh, secQuantity, shortSec, echoCommFn]
    rw [hc]
    norm_num
  · norm_num [echoCommFn]

/-- **C4** (corrected).  When `SecurityBase.allocate` executes a trade of
quantity `q ≠ 0`, the commission fee is obtained by invoking the
parent's `commission_fn` with the SIGNED quantity `q` (it is only the
default commission function that takes the absolute value internally)
and the per-unit price `price * multiplier`; the parent's capital is
then adjusted by `-(q * price * multiplier + fee)` via `parent.adjust`
with `flow=False` and `fee` equal to that commission. -/
theorem sec_allocate_commission_signed
    (commFn : ℚ → ℚ → ℚ) (pn : ℕ) (amount : ℚ) (upd : Bool) (s : SecState) (q : ℚ)
    (hupd : s.needupdate = false) (hnow : s.now = pn)
    (hamt : amount ≠ 0) (hpm : s.price * s.multiplier ≠ 0)
    (hq : q = if amount = -s.value then -s.position
          else if s.position > 0 ∨ (s.position = 0 ∧ amount > 0) then
            ((⌊amount / (s.price * s.multiplier)⌋ : ℤ) : ℚ)
          else ((⌈amount / (s.price * s.multiplier)⌉ : ℤ) : ℚ))
    (h0 : q ≠ 0) :
    secAllocate commFn pn false amount upd s =
      .ok ({ s with needupdate := true, position := s.position + q },
        some ⟨-(q * s.price * s.multiplier + commFn q (s.price * s.multiplier)), upd, false,
          commFn q (s.price * s.multiplier)⟩)
    ∧ (∀ x p, dfltCommFn x p = dfltCommFn |x| p) := by
  have hpr : s.price ≠ 0 := left_ne_zero_of_mul hpm
  subst hnow
  have href : secRefresh s.now s = s := by
    simp [secRefresh, hupd]
  have hsq : secQuantity amount s = .ok q := by
    rw [secQuantity, hq]
    by_cases h₁ : amount = -s.value
    · simp [h₁]
    · by_cases h₂ : s.position > 0 ∨ (s.position = 0 ∧ amount > 0)
      · simp [h₁, h₂, hpm]
      · simp [h₁, h₂, hpm]
  constructor
  · rw [secAllocate]
    simp only [href]
    simp [hamt, hpr, hsq, h0]
  · intro x p
    simp [dfltCommFn, abs_abs]

/-- Witness for C4 (corrected) at a concrete input: the short trade of
the counterexample, with the signed `q = -2` fee convention. -/
theorem sec_allocate_commission_signed_witness :
    (secAllocate echoCommFn 1 false (-2) true shortSec =
      .ok ({ shortSec with needupdate := true, position := shortSec.position + (-2) },
        some ⟨-((-2) * shortSec.price * shortSec.multiplier
                + echoCommFn (-2) (shortSec.price * shortSec.multiplier)), true, false,
          echoCommFn (-2) (shortSec.price * shortSec.multiplier)⟩)
    ∧ (∀ x p, dfltCommFn x p = dfltCommFn |x| p)) :=
  sec_allocate_commission_signed echoCommFn 1 (-2) true shortSec (-2) rfl rfl
    (by norm_num) (by norm_num [shortSec])
    (by
      have hc : (⌈(-2 : ℚ)⌉ : ℤ) = -2 := by
        rw [Int.ceil_eq_iff] ; norm_num
      norm_num [shortSec]
      rw [hc] ; norm_num)
    (by norm_num)

/-- An if-then-else of two successful results is never an error. -/
theorem exceptIsError_ite_ok {α : Type} (c : Prop) [Decidable c] (a b : α) :
    exceptIsError (if c then Except.ok a else Except.ok b : Except String α) = false := by
  split
  · rfl
  · rfl

/-- **C7 counterexample.**  The claim says `SecurityBase.allocate(0)`
returns silently without modifying any state.  On a security with a
pending refresh (`_needupdate = True`), `allocate(0)` first runs the
refresh `update` of `src/bt/core.py:899-900`, which rewrites
`_last_pos`, the positions/values series and the `_needupdate` flag, so
the state does change (here: even with a zero price and no error). -/
theorem sec_allocate_zero_counterexample :
    secAllocate dfltCommFn 1 false 0 true idleSec
      ≠ Except.ok (idleSec, (none : Option AdjustCall)) := by
  simp [secAllocate, secRefresh, secUpdate, idleSec, setKey]

/-- **C7** (corrected).  `SecurityBase.allocate(0)` returns without error
even when the security's price is 0 or NaN (the zero-amount no-op check
precedes the price check) and performs no trade and no parent
adjustment; however it may first refresh the security's own cached
state via `update` when `_needupdate` is set or its date is stale, so
the state is not necessarily untouched.  For a nonzero amount the call
raises exactly when the parent is the security itself or missing, when
the (refreshed) price is 0 or NaN, or when — outside the exact
full-close path — the divisor `price * multiplier` is zero (the
uncaught `ZeroDivisionError` at the quantity computation, reachable
with a zero multiplier); zero rounded quantity and every other
condition remain silent no-ops. -/
theorem sec_allocate_zero_noop_and_error_conditions
    (commFn : ℚ → ℚ → ℚ) (pn : ℕ) (orphan : Bool) (amount : ℚ) (upd : Bool) (s : SecState) :
    (secAllocate commFn pn orphan 0 upd s = .ok (secRefresh pn s, none))
    ∧ (exceptIsError (secAllocate commFn pn orphan amount upd s) = true ↔
        amount ≠ 0 ∧ (orphan = true ∨ (secRefresh pn s).price = 0
          ∨ (amount ≠ -(secRefresh pn s).value
             ∧ (secRefresh pn s).price * (secRefresh pn s).multiplier = 0))) := by
  constructor
  · simp [secAllocate]
  · rw [secAllocate]
    by_cases h0 : amount = 0
    · simp [h0, exceptIsError]
    · rw [if_neg h0]
      by_cases ho : orphan = true
      · simp [ho, h0, exceptIsError]
      · rw [if_neg ho]
        by_cases hp : (secRefresh pn s).price = 0
        · simp [hp, h0, ho, exceptIsError]
        · rw [if_neg hp, secQuantity]
          by_cases hc : amount = -(secRefresh pn s).value
          · rw [if_pos hc]
            dsimp only
            simp only [exceptIsError_ite_ok]
            simp [h0, ho, hp, hc]
          · rw [if_neg hc]
            by_cases hm : (secRefresh pn s).price * (secRefresh pn s).multiplier = 0
            · by_cases hl : (secRefresh pn s).position > 0
                  ∨ ((secRefresh pn s).position = 0 ∧ amount > 0)
              · rw [if_pos hl, if_pos hm]
                simp [exceptIsError, h0, ho, hp, hc, hm]
              · rw [if_neg hl, if_pos hm]
                simp [exceptIsError, h0, ho, hp, hc, hm]
            · by_cases hl : (secRefresh pn s).position > 0
                  ∨ ((secRefresh pn s).position = 0 ∧ amount > 0)
              · rw [if_pos hl, if_neg hm]
                dsimp only
                simp only [exceptIsError_ite_ok]
                simp [h0, ho, hp, hc, hm]
              · rw [if_neg hl, if_neg hm]
                dsimp only
                simp only [exceptIsError_ite_ok]
                simp [h0, ho, hp, hc, hm]

/-- Witness for C7 (corrected) at a concrete input: `allocate(0)` on the
pending-refresh, zero-price security returns the refreshed state with
no parent call and no error; a nonzero amount there errors because the
price is zero. -/
theorem sec_allocate_zero_noop_witness :
    (secAllocate dfltCommFn 1 false 0 true idleSec = .ok (secRefresh 1 idleSec, none))
    ∧ (exceptIsError (secAllocate dfltCommFn 1 false 7 true idleSec) = true ↔
        (7 : ℚ) ≠ 0 ∧ (false = true ∨ (secRefresh 1 idleSec).price = 0
          ∨ ((7 : ℚ) ≠ -(secRefresh 1 idleSec).value
             ∧ (secRefresh 1 idleSec).price * (secRefresh 1 idleSec).multiplier = 0)))
    ∧ (exceptIsError (secAllocate dfltCommFn 1 false 7 true zeroMultSec) = true ↔
        (7 : ℚ) ≠ 0 ∧ (false = true ∨ (secRefresh 1 zeroMultSec).price = 0
          ∨ ((7 : ℚ) ≠ -(secRefresh 1 zeroMultSec).value
             ∧ (secRefresh 1 zeroMultSec).price * (secRefresh 1 zeroMultSec).multiplier = 0))) :=
  ⟨(sec_allocate_zero_noop_and_error_conditions dfltCommFn 1 false 0 true idleSec).1,
   (sec_allocate_zero_noop_and_error_conditions dfltCommFn 1 false 7 true idleSec).2,
   (sec_allocate_zero_noop_and_error_conditions dfltCommFn 1 false 7 true zeroMultSec).2⟩

/-- Setting a child's weight does not change its cached value. -/
theorem nodeValue_setChildWeight (val : ℚ) (c : Node) :
    nodeValue (setChildWeight val c) = nodeValue c := by
  cases c with
  | sec s =>
    rw [setChildWeight]
    split
    · rfl
    · rfl
  | strat st cs => rfl

/-- The weight re-derivation pass preserves the sum of children values. -/
theorem sumValues_updateWeights (val : ℚ) (cs : List (String × Node)) :
    sumValues (updateWeights val cs) = sumValues cs := by
  induction cs with
  | nil => rfl
  | cons p rest ih =>
    simp only [updateWeights, List.map_cons, sumValues] at *
    rw [nodeValue_setChildWeight, ih]

/-- The value accumulated by the children-update loop equals the sum of
the resulting children values, provided every skipped (dormant)
security carries value zero. -/
theorem updateChildren_sum (d : ℕ) (cs cs₁ : List (String × Node)) (sm : ℚ)
    (h : updateChildren d cs = .ok (cs₁, sm))
    (hd : ∀ p ∈ cs, skipChild p.2 = true → nodeValue p.2 = 0) :
    sm = sumValues cs₁ := by
  induction cs generalizing cs₁ sm with
  | nil =>
    rw [updateChildren] at h
    injection h with h
    injection h with h₁ h₂
    subst h₁
    subst h₂
    rfl
  | cons p rest ih =>
    obtain ⟨k, c⟩ := p
    rw [updateChildren] at h
    by_cases hsk : skipChild c = true
    · rw [if_pos hsk] at h
      split at h
      · exact absurd h (by simp)
      case _ rest₁ s₂ heq =>
        injection h with h
        injection h with h₁ h₂
        subst h₁
        subst h₂
        have hv : nodeValue c = 0 := hd (k, c) (by simp) hsk
        have := ih rest₁ s₂ heq (fun p hp hskip => hd p (by simp [hp]) hskip)
        simp [sumValues, hv, this]
    · rw [if_neg hsk] at h
      split at h
      · exact absurd h (by simp)
      case _ c₁ heqc =>
        split at h
        · exact absurd h (by simp)
        case _ rest₁ s₂ heq =>
          injection h with h
          injection h with h₁ h₂
          subst h₁
          subst h₂
          have := ih rest₁ s₂ heq (fun p hp hskip => hd p (by simp [hp]) hskip)
          simp [sumValues, this]

/-- The cash/fees snapshot changes neither value, capital nor price. -/
theorem writeCashFees_fields (st : StratState) :
    (writeCashFees st).value = st.value ∧ (writeCashFees st).capital = st.capital
    ∧ (writeCashFees st).price = st.price ∧ (writeCashFees st).lastPrice = st.lastPrice := by
  refine ⟨rfl, rfl, rfl, rfl⟩

/-- A successful commit stores the computed value and leaves capital,
the snapshots and `now` untouched. -/
theorem commitValue_ok_fields (d : ℕ) (st : StratState) (val : ℚ) (st₂ : StratState)
    (h : commitValue d st val = .ok st₂) :
    st₂.value = val ∧ st₂.capital = st.capital ∧ st₂.lastPrice = st.lastPrice
    ∧ st₂.lastValue = st.lastValue ∧ st₂.netFlows = st.netFlows ∧ st₂.now = st.now := by
  rw [commitValue] at h
  split at h
  · split at h
    · injection h with h
      subst h
      exact ⟨rfl, rfl, rfl, rfl, rfl, rfl⟩
    · exact absurd h (by simp)
  · injection h with h
    subst h
    exact ⟨rfl, rfl, rfl, rfl, rfl, rfl⟩

/-- A successful commit with a nonzero denominator produces exactly the
multiplicative price update of the claim's formula. -/
theorem commitValue_den_ne (d : ℕ) (st : StratState) (val : ℚ)
    (hden : st.lastValue + st.netFlows ≠ 0) :
    commitValue d st val =
      .ok { st with
            value := val, valuesSeries := setKey d val st.valuesSeries,
            price := st.lastPrice * (1 + (val / (st.lastValue + st.netFlows) - 1)),
            pricesSeries := setKey d (st.lastPrice * (1 + (val / (st.lastValue + st.netFlows) - 1)))
              st.pricesSeries } := by
  rw [commitValue]
  simp [hden]

/-- A commit with a zero denominator and a zero committed value takes
the `ret = 0` branch and keeps the snapshot price. -/
theorem commitValue_den_zero_val_zero (d : ℕ) (st : StratState)
    (hden : st.lastValue + st.netFlows = 0) :
    commitValue d st 0 =
      .ok { st with
            value := 0, valuesSeries := setKey d 0 st.valuesSeries,
            price := st.lastPrice * (1 + 0),
            pricesSeries := setKey d (st.lastPrice * (1 + 0)) st.pricesSeries } := by
  rw [commitValue]
  simp [hden]

/-- A commit with a zero denominator and a nonzero committed value is
the fatal division-by-zero error. -/
theorem commitValue_den_zero_val_ne (d : ℕ) (st : StratState) (val : ℚ)
    (hden : st.lastValue + st.netFlows = 0) (hval : val ≠ 0) :
    commitValue d st val =
      .error ("Could not update " ++ st.name ++ ". We are dividing by zero to obtain the return for the period.") := by
  rw [commitValue]
  simp [hden, hval]

/-- **C2** (confirmed).  For every strategy node `s`, immediately after a
successful `s.update(date)` the cached value equals the capital plus
the sum of all children's values, where the skipped dormant securities
carry (and contribute) value zero. -/
theorem strat_update_value_invariant
    (d : ℕ) (isRoot : Bool) (st : StratState) (cs : List (String × Node)) (n : Node)
    (hd : ∀ p ∈ cs, skipChild p.2 = true → nodeValue p.2 = 0)
    (h : updateNode d isRoot (.strat st cs) = .ok n) :
    ∃ st₂ cs₂, n = .strat st₂ cs₂ ∧ st₂.value = st₂.capital + sumValues cs₂ := by
  rw [updateNode] at h
  split at h
  · exact absurd h (by simp)
  case _ cs₁ childSum heq =>
    dsimp only at h
    split at h
    · exact absurd h (by simp)
    case _ hneg =>
      split at h
      · exact absurd h (by simp)
      case _ st₂ hc =>
        injection h with h
        subst h
        refine ⟨writeCashFees st₂, updateWeights ((tickTransition d st).1.capital + childSum) cs₁,
          rfl, ?_⟩
        have hsum : childSum = sumValues cs₁ := updateChildren_sum d cs cs₁ childSum heq hd
        have hw := sumValues_updateWeights ((tickTransition d st).1.capital + childSum) cs₁
        have hwf := writeCashFees_fields st₂
        rw [hwf.1, hwf.2.1, hw, ← hsum]
        split at hc
        · have := commitValue_ok_fields d (tickTransition d st).1
            ((tickTransition d st).1.capital + childSum) st₂ hc
          rw [this.1, this.2.1]
        case _ hcond =>
          injection hc with hc
          subst hc
          push_neg at hcond
          exact hcond.2

/-- Witness for C2 at a concrete input: updating `w2Root` at date 2
skips the dormant child (value 0) and refreshes the active one. -/
theorem strat_update_value_invariant_witness :
    ∃ n st₂ cs₂, updateNode 2 true (.strat w2Root w2Kids) = .ok n
      ∧ n = .strat st₂ cs₂ ∧ st₂.value = st₂.capital + sumValues cs₂ := by
  have hok : exceptIsError (updateNode 2 true (.strat w2Root w2Kids)) = false := by
    norm_num [updateNode, updateChildren, tickTransition, commitValue, writeCashFees,
      updateWeights, setChildWeight, secUpdate, priceAt, setKey, sumValues, nodeValue,
      skipChild, w2Root, w2Kids, w2Dormant, w2Active, exceptIsError]
  cases hres : updateNode 2 true (.strat w2Root w2Kids) with
  | error e =>
    rw [hres] at hok
    exact absurd hok (by simp [exceptIsError])
  | ok n =>
    obtain ⟨st₂, cs₂, hn, hv⟩ :=
      strat_update_value_invariant 2 true w2Root w2Kids n (by decide) hres
    exact ⟨n, st₂, cs₂, rfl, hn, hv⟩

/-- **C1** (confirmed).  When `StrategyBase.update(date)` commits (a new
tick started or the freshly computed value differs from the cached
one), the new price is `last_price * (1 + r)` with
`r = value / (last_value + net_flows) - 1`, taken over the
post-tick-transition snapshots; a zero denominator with a zero new
value gives `r = 0` (price = `last_price`), and a zero denominator with
a nonzero new value raises the fatal division-by-zero error. -/
theorem strat_update_price_formula
    (d : ℕ) (isRoot : Bool) (st st₁ : StratState) (newpt : Bool)
    (cs cs₁ : List (String × Node)) (childSum : ℚ)
    (ht : tickTransition d st = (st₁, newpt))
    (hcs : updateChildren d cs = .ok (cs₁, childSum))
    (hroot : ¬(isRoot = true ∧ st₁.capital + childSum < 0))
    (hcommit : newpt = true ∨ st₁.value ≠ st₁.capital + childSum) :
    (st₁.lastValue + st₁.netFlows ≠ 0 →
      ∃ st₂ cs₂, updateNode d isRoot (.strat st cs) = .ok (.strat st₂ cs₂)
        ∧ st₂.value = st₁.capital + childSum
        ∧ st₂.price = st₁.lastPrice
            * (1 + (st₂.value / (st₁.lastValue + st₁.netFlows) - 1)))
    ∧ (st₁.lastValue + st₁.netFlows = 0 → st₁.capital + childSum = 0 →
      ∃ st₂ cs₂, updateNode d isRoot (.strat st cs) = .ok (.strat st₂ cs₂)
        ∧ st₂.value = 0 ∧ st₂.price = st₁.lastPrice * (1 + 0))
    ∧ (st₁.lastValue + st₁.netFlows = 0 → st₁.capital + childSum ≠ 0 →
      ∃ e, updateNode d isRoot (.strat st cs) = .error e) := by
  have hbody : updateNode d isRoot (.strat st cs) =
      (if isRoot = true ∧ st₁.capital + childSum < 0 then .error "negative root node value!"
       else match (if newpt = true ∨ st₁.value ≠ st₁.capital + childSum then
              commitValue d st₁ (st₁.capital + childSum) else .ok st₁) with
        | .error e => .error e
        | .ok st₂ => .ok (.strat (writeCashFees st₂)
            (updateWeights (st₁.capital + childSum) cs₁))) := by
    rw [updateNode, hcs, ht]
  rw [hbody, if_neg hroot, if_pos hcommit]
  refine ⟨?_, ?_, ?_⟩
  · intro hden
    rw [commitValue_den_ne d st₁ (st₁.capital + childSum) hden]
    exact ⟨_, _, rfl, rfl, rfl⟩
  · intro hden hval
    rw [hval, commitValue_den_zero_val_zero d st₁ hden]
    exact ⟨_, _, rfl, rfl, rfl⟩
  · intro hden hval
    rw [commitValue_den_zero_val_ne d st₁ (st₁.capital + childSum) hden hval]
    exact ⟨_, rfl⟩

/-- Witness for C1 at a concrete input: a childless root at date 2 whose
cached value 0 differs from its capital 10, with denominator 5. -/
theorem strat_update_price_formula_witness :
    ((tickTransition 2 c1Root).1.lastValue + (tickTransition 2 c1Root).1.netFlows ≠ 0 →
      ∃ st₂ cs₂, updateNode 2 true (.strat c1Root []) = .ok (.strat st₂ cs₂)
        ∧ st₂.value = (tickTransition 2 c1Root).1.capital + 0
        ∧ st₂.price = (tickTransition 2 c1Root).1.lastPrice
            * (1 + (st₂.value / ((tickTransition 2 c1Root).1.lastValue
                + (tickTransition 2 c1Root).1.netFlows) - 1)))
    ∧ ((tickTransition 2 c1Root).1.lastValue + (tickTransition 2 c1Root).1.netFlows = 0 →
        (tickTransition 2 c1Root).1.capital + 0 = 0 →
      ∃ st₂ cs₂, updateNode 2 true (.strat c1Root []) = .ok (.strat st₂ cs₂)
        ∧ st₂.value = 0 ∧ st₂.price = (tickTransition 2 c1Root).1.lastPrice * (1 + 0))
    ∧ ((tickTransition 2 c1Root).1.lastValue + (tickTransition 2 c1Root).1.netFlows = 0 →
        (tickTransition 2 c1Root).1.capital + 0 ≠ 0 →
      ∃ e, updateNode 2 true (.strat c1Root []) = .error e) :=
  strat_update_price_formula 2 true c1Root (tickTransition 2 c1Root).1
    (tickTransition 2 c1Root).2 [] [] 0 rfl (by simp [updateChildren])
    (by norm_num [tickTransition, c1Root])
    (Or.inr (by norm_num [tickTransition, c1Root]))

/-- One-step unfolding of a strategy update once the children result is
known. -/
theorem updateNode_strat_eq (d : ℕ) (isRoot : Bool) (st : StratState)
    (cs cs₁ : List (String × Node)) (childSum : ℚ)
    (hcs : updateChildren d cs = .ok (cs₁, childSum)) :
    updateNode d isRoot (.strat st cs) =
      (if isRoot = true ∧ (tickTransition d st).1.capital + childSum < 0 then
        .error "negative root node value!"
       else match (if (tickTransition d st).2 = true
              ∨ (tickTransition d st).1.value ≠ (tickTransition d st).1.capital + childSum then
            commitValue d (tickTransition d st).1 ((tickTransition d st).1.capital + childSum)
          else .ok (tickTransition d st).1) with
        | .error e => .error e
        | .ok st₂ => .ok (.strat (writeCashFees st₂)
            (updateWeights ((tickTransition d st).1.capital + childSum) cs₁))) := by
  rw [updateNode, hcs]

/-- **C6** (confirmed).  Flow neutrality: on a root strategy at a tick
with no performance impact yet (current value equals
`last_value + net_flows`, consistent with capital plus children, price
at the snapshot), for any amount keeping the root value non-negative,
`adjust(amount, flow=True)` followed by `update` at the same date
leaves the price unchanged — the injection alone contributes a per-tick
return of 0. -/
theorem flow_neutrality
    (d : ℕ) (amount : ℚ) (st : StratState) (cs cs₁ : List (String × Node)) (childSum : ℚ)
    (hnow : st.now = d) (hd0 : d ≠ 0)
    (hcs : updateChildren d cs = .ok (cs₁, childSum))
    (hval : st.value = st.capital + childSum)
    (hflow : st.value = st.lastValue + st.netFlows)
    (hprice : st.price = st.lastPrice)
    (hpos : 0 ≤ st.value + amount) :
    ∃ st₂ cs₂,
      updateNode d true (rootAdjust amount true true 0 (.strat st cs)) = .ok (.strat st₂ cs₂)
      ∧ st₂.price = st.price := by
  have hA : rootAdjust amount true true 0 (.strat st cs)
      = .strat (stratAdjust amount true true 0 st) cs := rfl
  have hT : (tickTransition d (stratAdjust amount true true 0 st)).1
      = { st with capital := st.capital + amount, netFlows := st.netFlows + amount, stale := false, now := d } := by
    simp [tickTransition, stratAdjust, hnow, hd0]
  have h6 : (tickTransition d (stratAdjust amount true true 0 st)).2 = false := by
    simp [tickTransition, stratAdjust, hnow, hd0]
  rw [hA, updateNode_strat_eq d true (stratAdjust amount true true 0 st) cs cs₁ childSum hcs,
    hT, h6]
  dsimp only
  have hvala : st.capital + amount + childSum = st.value + amount := by
    rw [hval] ; ring
  rw [hvala]
  rw [if_neg (by simp ; linarith)]
  by_cases hz : amount = 0
  · rw [if_neg (by simp [hz])]
    refine ⟨_, _, rfl, ?_⟩
    rw [(writeCashFees_fields _).2.2.1]
  · rw [if_pos (Or.inr (by intro h ; exact hz (by linarith)))]
    by_cases hv0 : st.value + amount = 0
    · rw [hv0]
      rw [commitValue_den_zero_val_zero d _ (by dsimp only ; rw [hflow] at hv0 ; linarith)]
      refine ⟨_, _, rfl, ?_⟩
      rw [(writeCashFees_fields _).2.2.1]
      dsimp only
      rw [hprice]
      ring
    · have hden :
          ({ st with capital := st.capital + amount, netFlows := st.netFlows + amount, stale := false, now := d } : StratState).lastValue
          + ({ st with capital := st.capital + amount, netFlows := st.netFlows + amount, stale := false, now := d } : StratState).netFlows ≠ 0 := by
        dsimp only
        rw [hflow] at hv0
        intro h ; exact hv0 (by linarith)
      rw [commitValue_den_ne d _ _ hden]
      refine ⟨_, _, rfl, ?_⟩
      rw [(writeCashFees_fields _).2.2.1]
      dsimp only
      have hdv : (st.value + amount) / (st.lastValue + (st.netFlows + amount)) = 1 := by
        rw [show st.lastValue + (st.netFlows + amount) = st.value + amount by rw [hflow] ; ring]
        exact div_self hv0
      rw [hdv, hprice]
      ring

/-- Witness for C6 at a concrete input: injecting 50 into the quiescent
`flowRoot` (value 100 = last value 60 + net flows 40) and updating at
the same date keeps the price at 110. -/
theorem flow_neutrality_witness :
    ∃ st₂ cs₂,
      updateNode 1 true (rootAdjust 50 true true 0 (.strat flowRoot [])) = .ok (.strat st₂ cs₂)
      ∧ st₂.price = flowRoot.price :=
  flow_neutrality 1 50 flowRoot [] [] 0 rfl (by norm_num) (by simp [updateChildren])
    (by norm_num [flowRoot]) (by norm_num [flowRoot]) (by norm_num [flowRoot])
    (by norm_num [flowRoot])

/-- Every `parent.adjust` call emitted by a security trade has
`flow=False` and the caller's `update` flag. -/
theorem secAllocate_call_flags
    (commFn : ℚ → ℚ → ℚ) (pn : ℕ) (orphan : Bool) (amount : ℚ) (upd : Bool)
    (s s₁ : SecState) (a : AdjustCall)
    (h : secAllocate commFn pn orphan amount upd s = .ok (s₁, some a)) :
    a.flow = false ∧ a.update = upd := by
  rw [secAllocate] at h
  split at h
  · simp only [Except.ok.injEq, Prod.mk.injEq] at h
    exact Option.noConfusion h.2
  · split at h
    · exact absurd h (by simp)
    · split at h
      · exact absurd h (by simp)
      · dsimp only at h
        repeat' split at h
        all_goals first
          | exact Except.noConfusion h
          | (simp only [Except.ok.injEq, Prod.mk.injEq, Option.some.injEq] at h
             first
               | exact Option.noConfusion h.2
               | (rw [← h.2] ; exact ⟨rfl, rfl⟩))

/-- Applying an adjust call with `flow=False` leaves `_net_flows`
untouched. -/
theorem applyAdjust_netFlows (a : AdjustCall) (st : StratState) (hf : a.flow = false) :
    (applyAdjust a st).netFlows = st.netFlows := by
  simp [applyAdjust, stratAdjust, hf]
  split
  · rfl
  · rfl

/-- Any `parent.adjust` call emitted by a child's `allocate` has
`flow=False` (securities emit the trade outlay, strategies emit the
internal transfer). -/
theorem allocateNode_call_flow
    (commFn : ℚ → ℚ → ℚ) (pn : ℕ) (amount : ℚ) (upd : Bool) (c c₁ : Node)
    (call : Option AdjustCall) (u : Bool)
    (h : allocateNode commFn pn amount upd c = .ok (c₁, call, u)) :
    ∀ a, call = some a → a.flow = false := by
  intro a ha
  subst ha
  cases c with
  | sec s =>
    rw [allocateNode] at h
    split at h
    · exact absurd h (by simp)
    case _ s₁ call₀ heq =>
      simp only [Except.ok.injEq, Prod.mk.injEq] at h
      rw [h.2.1] at heq
      exact (secAllocate_call_flags commFn pn false amount upd s s₁ a heq).1
  | strat stc csc =>
    rw [allocateNode] at h
    split at h
    · exact absurd h (by simp)
    case _ st₂ cs₁ heq =>
      simp only [Except.ok.injEq, Prod.mk.injEq] at h
      rw [← Option.some.inj h.2.1]

/-- The proportional cascade never changes the strategy's `_net_flows`:
all child adjustments are non-flow. -/
theorem allocateChildren_netFlows
    (commFn : ℚ → ℚ → ℚ) (amount : ℚ) (cs : List (String × Node)) :
    ∀ (st₀ st₂ : StratState) (cs₂ : List (String × Node)),
      allocateChildren commFn amount st₀ cs = .ok (st₂, cs₂) → st₂.netFlows = st₀.netFlows := by
  induction cs with
  | nil =>
    intro st₀ st₂ cs₂ h
    rw [allocateChildren] at h
    simp only [Except.ok.injEq, Prod.mk.injEq] at h
    rw [← h.1]
  | cons p rest ih =>
    intro st₀ st₂ cs₂ h
    obtain ⟨k, c⟩ := p
    rw [allocateChildren] at h
    split at h
    · exact absurd h (by simp)
    case _ c₁ call u heq =>
      split at h
      · exact absurd h (by simp)
      case _ st₃ rest₁ heq₂ =>
        simp only [Except.ok.injEq, Prod.mk.injEq] at h
        rw [← h.1]
        rw [ih (applyAdjustOpt call st₀) st₃ rest₁ heq₂]
        cases call with
        | none => rfl
        | some a =>
          exact applyAdjust_netFlows a st₀
            (allocateNode_call_flow commFn st₀.now (amount * nodeWeight c) false c c₁
              (some a) u heq a rfl)

/-- **C5** (confirmed).  `StrategyBase.allocate(amount)` without a child
argument: the parent's `adjust` is invoked with `-amount` and
`flow=True` exactly when the strategy is the root (both adjusts land on
the root itself), and with `flow=False` otherwise (the emitted call
record); the strategy's own `adjust` is invoked with `+amount` and
`flow=True`; and every child then receives
`c.allocate(amount * c._weight, update=False)` with the cached weight
and no intermediate recomputation.  Consequently the strategy's
`_net_flows` rises by exactly `amount` when it is not the root (the
cascade is flow-free), and is unchanged on the root (the two flows
cancel). -/
theorem strat_allocate_protocol
    (commFn : ℚ → ℚ → ℚ) (pn : ℕ) (amount : ℚ) (upd : Bool)
    (st : StratState) (cs : List (String × Node)) :
    (allocateNode commFn pn amount upd (.strat st cs) =
      match allocateChildren commFn amount (stratAdjust amount false true 0 st) cs with
      | .error e => .error e
      | .ok (st₂, cs₁) => .ok (.strat st₂ cs₁, some ⟨-amount, false, false, 0⟩, upd))
    ∧ (rootAllocate commFn amount upd (.strat st cs) =
      match allocateChildren commFn amount
          (stratAdjust amount false true 0 (stratAdjust (-amount) false true 0 st)) cs with
      | .error e => .error e
      | .ok (st₂, cs₁) => .ok (.strat (if upd then { st₂ with stale := true } else st₂) cs₁))
    ∧ (∀ (k : String) (c : Node) (rest : List (String × Node)) (st₀ : StratState),
        allocateChildren commFn amount st₀ ((k, c) :: rest) =
          match allocateNode commFn st₀.now (amount * nodeWeight c) false c with
          | .error e => .error e
          | .ok (c₁, call, _) =>
            match allocateChildren commFn amount (applyAdjustOpt call st₀) rest with
            | .error e => .error e
            | .ok (st₂, rest₁) => .ok (st₂, (k, c₁) :: rest₁))
    ∧ (∀ (st₂ : StratState) (cs₁ : List (String × Node)) (call : Option AdjustCall) (u : Bool),
        allocateNode commFn pn amount upd (.strat st cs) = .ok (.strat st₂ cs₁, call, u) →
          st₂.netFlows = st.netFlows + amount ∧ call = some ⟨-amount, false, false, 0⟩ ∧ u = upd)
    ∧ (∀ (st₂ : StratState) (cs₁ : List (String × Node)),
        rootAllocate commFn amount upd (.strat st cs) = .ok (.strat st₂ cs₁) →
          st₂.netFlows = st.netFlows) := by
  refine ⟨by rw [allocateNode], by rw [rootAllocate], ?_, ?_, ?_⟩
  · intro k c rest st₀
    rw [allocateChildren]
  · intro st₂ cs₁ call u h
    rw [allocateNode] at h
    split at h
    · exact absurd h (by simp)
    case _ st₃ cs₃ heq =>
      simp only [Except.ok.injEq, Prod.mk.injEq, Node.strat.injEq] at h
      obtain ⟨⟨h₁, h₂⟩, h₃, h₄⟩ := h
      subst h₁
      refine ⟨?_, h₃.symm, h₄.symm⟩
      rw [allocateChildren_netFlows commFn amount cs _ _ _ heq]
      simp [stratAdjust]
  · intro st₂ cs₁ h
    rw [rootAllocate] at h
    split at h
    · exact absurd h (by simp)
    case _ st₃ cs₃ heq =>
      have hnf := allocateChildren_netFlows commFn amount cs _ _ _ heq
      simp only [Except.ok.injEq, Node.strat.injEq] at h
      obtain ⟨h₁, h₂⟩ := h
      have h₁₂ : st₂.netFlows = st₃.netFlows := by
        rw [← h₁]
        split
        · rfl
        · rfl
      rw [h₁₂, hnf]
      simp [stratAdjust]

/-- Witness for C5 at a concrete input: the allocation protocol
instantiated on `st5` with its half-weight child and amount 20. -/
theorem strat_allocate_protocol_witness :
    (allocateNode dfltCommFn 1 20 true (.strat st5 st5Kids) =
      match allocateChildren dfltCommFn 20 (stratAdjust 20 false true 0 st5) st5Kids with
      | .error e => .error e
      | .ok (st₂, cs₁) => .ok (.strat st₂ cs₁, some ⟨-20, false, false, 0⟩, true))
    ∧ (rootAllocate dfltCommFn 20 true (.strat st5 st5Kids) =
      match allocateChildren dfltCommFn 20
          (stratAdjust 20 false true 0 (stratAdjust (-20) false true 0 st5)) st5Kids with
      | .error e => .error e
      | .ok (st₂, cs₁) => .ok (.strat (if true then { st₂ with stale := true } else st₂) cs₁))
    ∧ (∀ (k : String) (c : Node) (rest : List (String × Node)) (st₀ : StratState),
        allocateChildren dfltCommFn 20 st₀ ((k, c) :: rest) =
          match allocateNode dfltCommFn st₀.now (20 * nodeWeight c) false c with
          | .error e => .error e
          | .ok (c₁, call, _) =>
            match allocateChildren dfltCommFn 20 (applyAdjustOpt call st₀) rest with
            | .error e => .error e
            | .ok (st₂, rest₁) => .ok (st₂, (k, c₁) :: rest₁))
    ∧ (∀ (st₂ : StratState) (cs₁ : List (String × Node)) (call : Option AdjustCall) (u : Bool),
        allocateNode dfltCommFn 1 20 true (.strat st5 st5Kids) = .ok (.strat st₂ cs₁, call, u) →
          st₂.netFlows = st5.netFlows + 20 ∧ call = some ⟨-20, false, false, 0⟩ ∧ u = true)
    ∧ (∀ (st₂ : StratState) (cs₁ : List (String × Node)),
        rootAllocate dfltCommFn 20 true (.strat st5 st5Kids) = .ok (.strat st₂ cs₁) →
          st₂.netFlows = st5.netFlows) :=
  strat_allocate_protocol dfltCommFn 1 20 true st5 st5Kids

/-- Normal mode runs the algos in order up to (and including) the first
failure, returning that result and the state reached there. -/
theorem normalLoop_spec {σ : Type} (algos : List (AlgoRec σ)) :
    ∀ t : σ, normalLoop algos t
      = ((runUntilFalse algos t).1, (runUntilFalse algos t).2.1) := by
  induction algos with
  | nil => intro t ; rfl
  | cons a rest ih =>
    intro t
    rw [normalLoop, runUntilFalse]
    rcases h : a.run t with ⟨r, t₁⟩
    cases r
    · rfl
    · exact ih t₁

/-- After a short-circuit (`res = False`), the extended mode only runs
the algos with a true `run_always` attribute, discarding results. -/
theorem extLoop_false {σ : Type} (algos : List (AlgoRec σ)) :
    ∀ t : σ, extLoop algos false t = (false, runAlwaysOnly algos t) := by
  induction algos with
  | nil => intro t ; rfl
  | cons a rest ih =>
    intro t
    rw [extLoop, runAlwaysOnly]
    by_cases h₁ : a.hasRunAlways = true
    · by_cases h₂ : a.runAlwaysVal = true
      · simp [h₁, h₂, ih]
      · simp [h₁, h₂, ih]
    · simp [h₁, ih]

/-- Extended mode equals: run until the first failure, then the
`run_always` continuation on the remaining algos. -/
theorem extLoop_true {σ : Type} (algos : List (AlgoRec σ)) :
    ∀ t : σ, extLoop algos true t
      = ((runUntilFalse algos t).1,
         if (runUntilFalse algos t).1 = true then (runUntilFalse algos t).2.1
         else runAlwaysOnly (runUntilFalse algos t).2.2 (runUntilFalse algos t).2.1) := by
  induction algos with
  | nil => intro t ; rfl
  | cons a rest ih =>
    intro t
    rw [extLoop, runUntilFalse]
    rcases h : a.run t with ⟨r, t₁⟩
    cases r
    · simp only [if_true, ite_true]
      rw [extLoop_false rest t₁]
      simp
    · simp only [if_true, ite_true]
      exact ih t₁

/-- **C8** (confirmed).  `AlgoStack.__call__` invokes its algos in order;
with no `run_always` attribute anywhere it stops at the first algo
returning `False` and returns `False` (`True` if none); when at least
one algo has the attribute, after the first `False` only algos whose
`run_always` is true are still invoked, their results are discarded,
and the overall result is `False` exactly when some algo returned
`False` before the short-circuit point.  `runUntilFalse` and
`runAlwaysOnly` are the claim-side descriptions being refined. -/
theorem algo_stack_semantics {σ : Type} (algos : List (AlgoRec σ)) (t : σ) :
    algoStackCall algos t =
      (if algos.any (fun a => a.hasRunAlways) then
        ((runUntilFalse algos t).1,
          if (runUntilFalse algos t).1 = true then (runUntilFalse algos t).2.1
          else runAlwaysOnly (runUntilFalse algos t).2.2 (runUntilFalse algos t).2.1)
      else ((runUntilFalse algos t).1, (runUntilFalse algos t).2.1)) := by
  rw [algoStackCall]
  by_cases h : algos.any (fun a => a.hasRunAlways) = true
  · simp only [h, Bool.not_true, if_true, ite_true, Bool.false_eq_true, if_false]
    exact extLoop_true algos t
  · simp only [Bool.not_eq_true] at h
    simp only [h, Bool.not_false, if_true, Bool.false_eq_true, if_false]
    exact normalLoop_spec algos t

/-- Appending a fresh entry under an absent key makes it found. -/
theorem lookupChild_append (child : String) (cs : List (String × Node)) (c₀ : Node)
    (hmiss : lookupChild child cs = none) :
    lookupChild child (cs ++ [(child, c₀)]) = some c₀ := by
  induction cs with
  | nil => simp [lookupChild]
  | cons p rest ih =>
    obtain ⟨k, c⟩ := p
    simp only [lookupChild] at hmiss
    by_cases hk : k = child
    · rw [if_pos hk] at hmiss
      exact absurd hmiss (by simp)
    · rw [if_neg hk] at hmiss
      simp only [List.cons_append, lookupChild, if_neg hk]
      exact ih hmiss

/-- Replacing a present key keeps it present (with the new node). -/
theorem lookupChild_replaceChild (child : String) (cs : List (String × Node)) (c : Node)
    (hsome : (lookupChild child cs).isSome = true) :
    lookupChild child (replaceChild child c cs) = some c := by
  induction cs with
  | nil => simp [lookupChild] at hsome
  | cons p rest ih =>
    obtain ⟨k, c₀⟩ := p
    by_cases hk : k = child
    · simp [replaceChild, lookupChild, hk]
    · simp only [lookupChild, if_neg hk] at hsome
      simp [replaceChild, lookupChild, hk, ih hsome]

/-- A successful `allocChildCore` keeps a present child key present. -/
theorem allocChildCore_keeps_key
    (commFn : ℚ → ℚ → ℚ) (st : StratState) (cs : List (String × Node))
    (child : String) (c : Node) (amount : ℚ) (st₂ : StratState) (cs₂ : List (String × Node))
    (hsome : (lookupChild child cs).isSome = true)
    (h : allocChildCore commFn st cs child c amount = .ok (st₂, cs₂)) :
    (lookupChild child cs₂).isSome = true := by
  rw [allocChildCore] at h
  split at h
  · exact absurd h (by simp)
  case _ c₁ call staleReq heq =>
    simp only [Except.ok.injEq, Prod.mk.injEq] at h
    rw [← h.2]
    rw [lookupChild_replaceChild child cs c₁ hsome]
    rfl

/-- **C9** (confirmed).  `close(child)` on a strategy whose children
mapping lacks that name raises a `KeyError` before any state is
modified (the lookup is the first statement), and never materializes
the missing child; `rebalance(0, child)` on a missing child is a silent
no-op returning the state unchanged; while `allocate(amount, child)`
and `rebalance(weight, child)` with nonzero weight materialize the
missing child — after any successful run, the name is present in the
children mapping. -/
theorem close_missing_child_protocol
    (commFn : ℚ → ℚ → ℚ) (univ : List (String × List ℚ)) (st : StratState)
    (cs : List (String × Node)) (child : String) (amount weight : ℚ) (base : Option ℚ)
    (hmiss : lookupChild child cs = none) :
    closeChild commFn st cs child = .error ("KeyError: " ++ child)
    ∧ rebalanceChild commFn univ st cs 0 child base = .ok (st, cs)
    ∧ (∀ st₂ cs₂, stratAllocateChild commFn univ st cs amount child = .ok (st₂, cs₂) →
        (lookupChild child cs₂).isSome = true)
    ∧ (weight ≠ 0 → ∀ st₂ cs₂,
        rebalanceChild commFn univ st cs weight child base = .ok (st₂, cs₂) →
        (lookupChild child cs₂).isSome = true) := by
  have hfound : ∀ c₀ : Node, (lookupChild child (cs ++ [(child, c₀)])).isSome = true := by
    intro c₀
    rw [lookupChild_append child cs c₀ hmiss]
    rfl
  refine ⟨?_, ?_, ?_, ?_⟩
  · rw [closeChild, hmiss]
  · rw [rebalanceChild.eq_def]
    simp [hmiss]
  · intro st₂ cs₂ h
    rw [stratAllocateChild, hmiss] at h
    exact allocChildCore_keeps_key commFn st (cs ++ [(child, materializeChild univ st.now child)])
      child (materializeChild univ st.now child) amount st₂ cs₂ (hfound _) h
  · intro hw st₂ cs₂ h
    rw [rebalanceChild.eq_def, if_neg hw, hmiss] at h
    exact allocChildCore_keeps_key commFn st (cs ++ [(child, materializeChild univ st.now child)])
      child (materializeChild univ st.now child) _ st₂ cs₂ (hfound _) h

/-- Witness for C9 at a concrete input: `st9` has no children, so
closing "GGG" is a `KeyError`, a zero-weight rebalance is a no-op, and
the allocation/rebalance paths materialize "GGG" from `univ9`. -/
theorem close_missing_child_protocol_witness :
    closeChild dfltCommFn st9 [] "GGG" = .error ("KeyError: " ++ "GGG")
    ∧ rebalanceChild dfltCommFn univ9 st9 [] 0 "GGG" none = .ok (st9, [])
    ∧ (∀ st₂ cs₂, stratAllocateChild dfltCommFn univ9 st9 [] 30 "GGG" = .ok (st₂, cs₂) →
        (lookupChild "GGG" cs₂).isSome = true)
    ∧ ((1 / 2 : ℚ) ≠ 0 → ∀ st₂ cs₂,
        rebalanceChild dfltCommFn univ9 st9 [] (1 / 2) "GGG" none = .ok (st₂, cs₂) →
        (lookupChild "GGG" cs₂).isSome = true) :=
  close_missing_child_protocol dfltCommFn univ9 st9 [] "GGG" 30 (1 / 2) none rfl

/-- **C10** (confirmed).  Reading `StrategyBase.capital`,
`StrategyBase.cash`, `StrategyBase.fees` or `SecurityBase.position`
returns the raw cached field and leaves the whole tree — including
`root.stale` — untouched, for every state, stale or not.  By contrast,
on the concrete stale root `staleRoot` the cached `_value` field is 0
while the update-triggering `value` property read re-derives 5 (the
capital), so the raw reads are inconsistent with `value` until an
update-triggering read occurs. -/
theorem raw_reads_frame (root : Node) (s : SecState) :
    readCapital root = (stratCapitalField root, root)
    ∧ readCash root = (stratCashField root, root)
    ∧ readFees root = (stratFeesField root, root)
    ∧ readPosition s = (s.position, s)
    ∧ nodeStale (readCapital root).2 = nodeStale root
    ∧ nodeStale (.strat staleRoot []) = true
    ∧ (readCapital (.strat staleRoot [])).1 = 5
    ∧ (readCapital (.strat staleRoot [])).2 = .strat staleRoot []
    ∧ stratValueField (.strat staleRoot []) = 0
    ∧ (readValue (.strat staleRoot [])).toOption.map Prod.fst = some 5 := by
  refine ⟨rfl, rfl, rfl, rfl, rfl, rfl, by norm_num [readCapital, stratCapitalField, staleRoot],
    rfl, by norm_num [stratValueField, staleRoot], ?_⟩
  norm_num [readValue, nodeStale, nodeNow, staleRoot, updateNode, updateChildren,
    tickTransition, commitValue, writeCashFees, updateWeights, setKey, stratValueField]
  exact ⟨_, rfl⟩
